import Mathlib

/-!
Shallow embedding of the chat-service pipeline of this repository
(`src/lib/chatService.ts`): intent classification, entity extraction,
resume evidence retrieval and response composition, together with proofs
of the specified properties.

Strings are modelled as `List Char` (JavaScript strings are sequences of
code units); numeric scores are modelled as `ℚ` (exact rational semantics
of the quotients computed by the code); the external text-generation
collaborator is modelled as a function producing an explicit outcome.
-/

namespace ChatService

/-- JavaScript whitespace (the characters of `\s` relevant here, and the
characters removed by `trim`): space, tab, and line/page separators. -/
def isWS (c : Char) : Bool :=
  c == ' ' || c == '\t' || c == '\n' || c == '\r' || c == '\x0b' || c == '\x0c'

/-- The sentence separators of `resumeText.split(/[.!?]+/)`. -/
def isSentSep (c : Char) : Bool :=
  c == '.' || c == '!' || c == '?'

/-- Split a string on maximal runs of separator characters, with the
semantics of JavaScript `String.prototype.split` on a `/[sep]+/` regex:
a leading run yields a leading empty field, a trailing run a trailing
empty field, and the empty string yields `[[]]`. -/
def splitRun (sep : Char → Bool) : List Char → List (List Char)
  | [] => [[]]
  | c :: cs =>
    if sep c then
      match cs with
      | c' :: _ => if sep c' then splitRun sep cs else [] :: splitRun sep cs
      | [] => [] :: splitRun sep cs
    else
      match splitRun sep cs with
      | [] => [[c]]
      | f :: fs => (c :: f) :: fs

/-- JavaScript `String.prototype.trim`: drop whitespace from both ends. -/
def trimChars (s : List Char) : List Char :=
  ((s.dropWhile isWS).reverse.dropWhile isWS).reverse

/-- JavaScript `haystack.includes(needle)`: `needle` occurs as a
contiguous substring of `haystack` (the empty needle always occurs). -/
def containsSub (needle : List Char) : List Char → Bool
  | [] => List.isPrefixOf needle []
  | c :: cs => List.isPrefixOf needle (c :: cs) || containsSub needle cs

/-- One retrieved evidence snippet (`EvidenceSource` in the source). -/
structure EvidenceSource where
  type : String
  content : String
  relevanceScore : ℚ
  location : String
deriving DecidableEq, Repr

/-- `resumeText.split(/[.!?]+/).filter(s => s.trim().length > 0)`:
the sentence units of the resume that survive the emptiness filter. -/
def sentencesOf (resumeText : String) : List (List Char) :=
  (splitRun isSentSep resumeText.data).filter (fun s => !(trimChars s).isEmpty)

/-- `query.toLowerCase().split(/\s+/)`: the query terms. -/
def queryTermsOf (query : String) : List (List Char) :=
  splitRun isWS (query.data.map Char.toLower)

/-- The per-sentence loop counter of `searchResume`: the number of query
terms occurring as substrings of the lowercased trimmed sentence, each
term counted at most once however often it occurs in the sentence. -/
def sentenceScore (terms : List (List Char)) (s : List Char) : Nat :=
  terms.countP (fun t => containsSub t ((trimChars s).map Char.toLower))

/-- The loop body of `searchResume`: walk the surviving sentences with the
loop counter `i`, score each trimmed sentence by the number of query terms
occurring in its lowercased text, and keep the positively scored ones. -/
def buildEvidence (terms : List (List Char)) (i : Nat) :
    List (List Char) → List EvidenceSource
  | [] => []
  | s :: rest =>
    if 0 < sentenceScore terms s then
      { type := "resume", content := ⟨trimChars s⟩,
        relevanceScore := (sentenceScore terms s : ℚ) / (terms.length : ℚ),
        location := "Sentence " ++ toString (i + 1) } ::
        buildEvidence terms (i + 1) rest
    else
      buildEvidence terms (i + 1) rest

/-- Insert one element into a list ordered by non-increasing
`relevanceScore`, placing it before the first element of smaller or equal
score. -/
def insertDesc (x : EvidenceSource) : List EvidenceSource → List EvidenceSource
  | [] => [x]
  | y :: ys =>
    if y.relevanceScore ≤ x.relevanceScore then x :: y :: ys
    else y :: insertDesc x ys

/-- The stable descending sort of
`.sort((a, b) => b.relevanceScore - a.relevanceScore)` (ECMAScript sorts
are stable; a stable sort for a total preorder is unique, and this
insertion sort is stable for the descending-score order). -/
def sortDesc : List EvidenceSource → List EvidenceSource
  | [] => []
  | x :: xs => insertDesc x (sortDesc xs)

/-- `ChatService.searchResume`: empty resume short-circuits to `[]`;
otherwise score the surviving sentence units, sort by descending score and
keep the first five. -/
def searchResume (resumeText query : String) : List EvidenceSource :=
  if resumeText = "" then []
  else
    (sortDesc (buildEvidence (queryTermsOf query) 0 (sentencesOf resumeText))).take 5

/-- The closed intent enumeration (`ChatIntent` in the source). -/
inductive ChatIntent where
  | resume_detail_inquiry
  | evaluation_challenge
  | candidate_comparison
  | skill_verification
  | experience_analysis
  | ambiguity_check
  | unknown
deriving DecidableEq, Repr

/-- Search for the literal piece `p` from the current position, skipping
only characters that `.` may match (anything but a line terminator, since
the source patterns carry no `s` flag); on success return the text right
after the matched occurrence.  This models the `.*piece` step of a rule. -/
def findNoNL (p : List Char) : List Char → Option (List Char)
  | [] => if List.isPrefixOf p [] then some [] else none
  | c :: cs =>
    if List.isPrefixOf p (c :: cs) then some ((c :: cs).drop p.length)
    else if c == '\n' || c == '\r' then none
    else findNoNL p cs

/-- Match the remaining `.*`-separated literal pieces of one alternative,
taking for each piece its earliest admissible occurrence (complete here
because the pieces contain no line terminators). -/
def matchTail : List (List Char) → List Char → Bool
  | [], _ => true
  | p :: ps, s =>
    match findNoNL p s with
    | some s' => matchTail ps s'
    | none => false

/-- Try one alternative (its first literal piece followed by the
`.*`-separated rest) at every start position of `s`, as the unanchored
JavaScript regex engine does. -/
def scanStarts (p : List Char) (ps : List (List Char)) : List Char → Bool
  | [] => List.isPrefixOf p [] && matchTail ps []
  | c :: cs =>
    (List.isPrefixOf p (c :: cs) && matchTail ps ((c :: cs).drop p.length))
      || scanStarts p ps cs

/-- Whether one alternative of a rule matches somewhere in `s`. -/
def testAlt (pieces : List (List Char)) (s : List Char) : Bool :=
  match pieces with
  | [] => true
  | p :: ps => scanStarts p ps s

/-- One classifier rule: an alternation of alternatives, each a list of
lowercase literal pieces separated by `.*` in the source regex. -/
abbrev Rule := List (List String)

/-- `pattern.test(query)` for one rule against the lowercased query. -/
def testRule (rule : Rule) (ql : List Char) : Bool :=
  rule.any (fun alt => testAlt (alt.map String.data) ql)

/-- The ordered intent table of `classifyIntent` (`intentPatterns`),
transcribed rule by rule; each rule lists the alternatives of one source
regex, each alternative its `.*`-separated literal pieces. -/
def intentTable : List (ChatIntent × List Rule) :=
  [ (.resume_detail_inquiry,
      [ [["did they mention"], ["do they have"], ["where", "show"], ["what", "experience"]],
        [["background in"], ["skilled in"], ["familiar with"]] ]),
    (.evaluation_challenge,
      [ [["why", "qualified"], ["why", "score"], ["why", "ranked"], ["what", "wrong"]],
        [["reason", "failed"], ["explanation", "tier"]] ]),
    (.candidate_comparison,
      [ [["stronger than"], ["better than"], ["compare", "to"], ["versus"], ["vs."]],
        [["who", "better"], ["which", "candidate"]] ]),
    (.skill_verification,
      [ [["where", "leadership"], ["demonstrate", "skills"], ["show", "ability"]],
        [["evidence", "of"], ["proof", "of"]] ]),
    (.experience_analysis,
      [ [["years", "experience"], ["how long"], ["duration", "work"]],
        [["career", "length"], ["time", "in"]] ]),
    (.ambiguity_check,
      [ [["justified"], ["reasonable"], ["fair", "assessment"], ["accurate"]],
        [["should", "be", "higher"], ["seems", "low"]] ]),
    (.unknown, []) ]

/-- The query lowercased for case-insensitive matching. -/
def lowerQuery (query : String) : List Char :=
  query.data.map Char.toLower

/-- JavaScript `\w`: ASCII letters, digits and underscore. -/
def isWordChar (c : Char) : Bool :=
  c.isAlphanum || c == '_'

/-- Whether an optional character (none at the ends of the string) is a
word character, for `\b` word-boundary tests. -/
def isWordOpt : Option Char → Bool
  | none => false
  | some c => isWordChar c

/-- The fixed technology vocabulary of `extractEntities`, transcribed in
source order from the alternation of its `match` regex. -/
def techVocab : List String :=
  ["JavaScript", "Python", "React", "Node.js", "AWS", "Azure", "Docker",
   "Kubernetes", "SQL", "MongoDB", "Git", "Java", "C++", "HTML", "CSS",
   "API", "REST", "GraphQL", "TypeScript", "Vue", "Angular", "PHP", "Ruby",
   "Go", "Rust", "Swift", "Kotlin", "Android", "iOS", "Linux", "Windows",
   "macOS", "Jenkins", "CI/CD", "DevOps", "Agile", "Scrum",
   "Machine Learning", "AI", "Data Science", "Analytics", "Cloud",
   "Database", "Security", "Testing", "QA", "UI/UX", "Design", "Marketing",
   "Sales", "Management", "Leadership", "Communication",
   "Project Management", "Certification", "Degree", "Bachelor", "Master",
   "PhD", "PMP", "Scrum Master", "AWS Certified", "Microsoft Certified"]

/-- Try the vocabulary alternatives in listed order at the current
position: a term matches when it is a case-insensitive prefix of the
remaining text and both `\b` word boundaries hold (`prevWord` tells
whether the character just before the position is a word character).
Returns the matched text in its original casing and the remainder. -/
def tryTerms (prevWord : Bool) : List String → List Char → Option (List Char × List Char)
  | [], _ => none
  | t :: ts, s =>
    let a := t.data
    let m := s.take a.length
    let rest := s.drop a.length
    if m.map Char.toLower = a.map Char.toLower ∧ a ≠ [] ∧
        (prevWord != isWordOpt m.head?) = true ∧
        (isWordOpt m.getLast? != isWordOpt rest.head?) = true then
      some (m, rest)
    else
      tryTerms prevWord ts s

/-- The global scan of `query.match(/\b(?:…)\b/gi)`: walk the string left
to right, at each position try the vocabulary alternatives in order, and
after a match continue right after it.  `fuel` bounds the recursion and is
initialised with the string length (every step consumes at least one
character, so the fuel never runs out). -/
def techScanAux (fuel : Nat) (prev : Option Char) (s : List Char) : List (List Char) :=
  match fuel, s with
  | 0, _ => []
  | _, [] => []
  | fuel' + 1, c :: cs =>
    match tryTerms (isWordOpt prev) techVocab (c :: cs) with
    | some (m, rest) => m :: techScanAux fuel' m.getLast? rest
    | none => techScanAux fuel' (some c) cs

/-- All technology-vocabulary matches of the query, in order of first
appearance, duplicates included. -/
def techMatches (query : String) : List (List Char) :=
  techScanAux query.data.length none query.data

/-- `matches.join(', ')`. -/
def joinComma (l : List (List Char)) : String :=
  String.intercalate ", " (l.map (fun m => ⟨m⟩))

/-- Case-insensitive literal prefix test. -/
def ciPrefix (pat : String) (s : List Char) : Bool :=
  (s.take pat.data.length).map Char.toLower = pat.data.map Char.toLower

/-- The year tokens of `(?:years?|yrs?)` in the order the engine tries
them (first alternative with greedy optional `s`, then the second). -/
def yearTokens : List String :=
  ["years", "year", "yrs", "yr"]

/-- Drop a matching year token, if any, returning the remainder. -/
def dropYearToken : List String → List Char → Option (List Char)
  | [], _ => none
  | t :: ts, s =>
    if ciPrefix t s then some (s.drop t.data.length)
    else dropYearToken ts s

/-- Attempt the experience regex
`(\d+)\s*(?:years?|yrs?)\s*(?:of\s*)?(?:experience|exp)` at the current
position; on success return the captured digit run.  Greedy maximal
munch is complete for this pattern (no digit can start `\s*` or a year
token, no whitespace can start `of` or `exp`, and a text starting with
`of` cannot start `exp`). -/
def expMatchAt (s : List Char) : Option (List Char) :=
  let ds := s.takeWhile Char.isDigit
  if ds.isEmpty then none
  else
    let r1 := (s.dropWhile Char.isDigit).dropWhile isWS
    match dropYearToken yearTokens r1 with
    | none => none
    | some r2 =>
      let r3 := r2.dropWhile isWS
      let r4 := if ciPrefix "of" r3 then (r3.drop 2).dropWhile isWS else r3
      if ciPrefix "experience" r4 || ciPrefix "exp" r4 then some ds else none

/-- Leftmost match of the experience regex over the whole query. -/
def expScan : List Char → Option (List Char)
  | [] => none
  | c :: cs =>
    match expMatchAt (c :: cs) with
    | some ds => some ds
    | none => expScan cs

/-- `ChatService.extractEntities`: the entity record, modelled as an
association list in insertion order (`technologies` first, then
`experience_years`), empty when nothing matches. -/
def extractEntities (query : String) : List (String × String) :=
  let tech := techMatches query
  let withTech : List (String × String) :=
    if tech.isEmpty then [] else [("technologies", joinComma tech)]
  match expScan query.data with
  | some ds => withTech ++ [("experience_years", (⟨ds⟩ : String))]
  | none => withTech

/-- `IntentClassificationResult` of the source. -/
structure IntentClassificationResult where
  intent : ChatIntent
  confidence : ℚ
  entities : List (String × String)
deriving DecidableEq, Repr

/-- `ChatService.classifyIntent`: scan the intent table in declaration
order (`Object.entries` preserves it) and return the first intent one of
whose rules matches the query case-insensitively, with confidence `0.8`;
otherwise the `unknown` fallback with confidence `0.3`. -/
def classifyIntent (query : String) : IntentClassificationResult :=
  let ql := lowerQuery query
  match intentTable.find? (fun ir => ir.2.any (fun rule => testRule rule ql)) with
  | some ir => { intent := ir.1, confidence := 0.8, entities := extractEntities query }
  | none => { intent := .unknown, confidence := 0.3, entities := extractEntities query }

/-- The evaluation-result slice of `ChatContext` that the composer reads:
`scores?.overall`, `tier` and `explanation`, each possibly absent. -/
structure EvaluationResultCtx where
  overall : Option Int
  tier : Option String
  explanation : Option String
deriving DecidableEq, Repr

/-- `ChatContext` as consumed by `generateResponse`. -/
structure ChatContext where
  candidateName : Option String
  resumeText : Option String
  jobDescription : Option String
  mustHaveAttributes : Option String
  evaluationResult : Option EvaluationResultCtx
deriving DecidableEq, Repr

/-- JavaScript truthiness of an optional string: present and non-empty. -/
def truthyOpt : Option String → Bool
  | none => false
  | some s => s != ""

/-- `scores?.overall || 'N/A'` rendered as text (`0` is falsy). -/
def scoreText : Option Int → String
  | none => "N/A"
  | some n => if n = 0 then "N/A" else toString n

/-- `context.candidateName` line: falsy gives the empty string. -/
def candidateLine (cn : Option String) : String :=
  match cn with
  | some n => if n = "" then "" else "Candidate: " ++ n
  | none => ""

/-- `context.jobDescription` line: the first 500 characters with the
ellipsis marker appended whenever a job description is present, even a
short one. -/
def jobLine (jd : Option String) : String :=
  match jd with
  | some j => if j = "" then "" else
      "Job Description: " ++ (⟨j.data.take 500⟩ : String) ++ "..."
  | none => ""

/-- `context.mustHaveAttributes` line. -/
def mustHaveLine (m : Option String) : String :=
  match m with
  | some v => if v = "" then "" else "Must-Have Attributes: " ++ v
  | none => ""

/-- `context.evaluationResult` score line, present whenever an evaluation
result is. -/
def scoreLine (er : Option EvaluationResultCtx) : String :=
  match er with
  | some e => "Evaluation Score: " ++ scoreText e.overall
  | none => ""

/-- `context.evaluationResult?.tier` line. -/
def tierLine (er : Option EvaluationResultCtx) : String :=
  match er with
  | some e =>
    match e.tier with
    | some t => if t = "" then "" else "Tier: " ++ t
    | none => ""
  | none => ""

/-- `context.evaluationResult?.explanation` line. -/
def explanationLine (er : Option EvaluationResultCtx) : String :=
  match er with
  | some e =>
    match e.explanation with
    | some x => if x = "" then "" else "Evaluation Summary: " ++ x
    | none => ""
  | none => ""

/-- The six candidate lines of the `contextInfo` template literal, before
the truthiness filter: falsy fields contribute the empty string. -/
def contextLinesRaw (ctx : ChatContext) : List String :=
  [ candidateLine ctx.candidateName,
    jobLine ctx.jobDescription,
    mustHaveLine ctx.mustHaveAttributes,
    scoreLine ctx.evaluationResult,
    tierLine ctx.evaluationResult,
    explanationLine ctx.evaluationResult ]

/-- `contextInfo`'s surviving lines: the truthiness filter keeps the non-empty ones. -/
def contextLines (ctx : ChatContext) : List String :=
  (contextLinesRaw ctx).filter (fun s => s != "")

/-- The surviving lines joined with newlines. -/
def contextInfo (ctx : ChatContext) : String :=
  String.intercalate "\n" (contextLines ctx)

/-- The evidence block of the user message. -/
def evidenceText (evidence : List EvidenceSource) : String :=
  if evidence.length > 0 then
    "\nRelevant Evidence:\n" ++
      String.intercalate "\n" (evidence.map (fun e => "- " ++ e.content))
  else
    "\nNo specific evidence found in resume."

/-- The string form of an intent, as in the source's string union. -/
def intentName : ChatIntent → String
  | .resume_detail_inquiry => "resume_detail_inquiry"
  | .evaluation_challenge => "evaluation_challenge"
  | .candidate_comparison => "candidate_comparison"
  | .skill_verification => "skill_verification"
  | .experience_analysis => "experience_analysis"
  | .ambiguity_check => "ambiguity_check"
  | .unknown => "unknown"

/-- The fixed system instruction (`RISEN_SYSTEM_PROMPT`). -/
def RISEN_SYSTEM_PROMPT : String :=
  "\nYou are a professional HR Copilot AI, assisting a human recruiter during post-evaluation review of candidate resumes.\n\nROLE: You act as a context-aware analyst helping HR clarify doubts, explore resume evidence, understand evaluation outcomes, and identify hidden strengths or gaps. You are accurate, transparent, and always grounded in the candidate's actual documents and metadata.\n\nFORMATTING RULES:\n- Use clear, professional language without markdown formatting\n- Never use asterisks for bold or italics\n- Structure responses with clear paragraphs and proper spacing\n- Use \"quotation marks\" when quoting from resumes\n- Create lists with simple dashes or numbers\n\nINPUTS: You receive candidate information including:\n- Full parsed resume text\n- Evaluation results (score 0-100, tier, gaps, summary, qualification status)\n- Job description and must-have attributes\n- Semantic similarity scores when available\n\nRESPONSE GUIDELINES:\n1. Start with a direct answer to the question\n2. Provide evidence from the resume when relevant\n3. Use clear paragraph breaks for readability\n4. Quote specific sections when referencing the resume\n5. End with actionable insights when appropriate\n\nTONE:\n- Professional yet conversational\n- Confident but not overly formal\n- Helpful and constructive\n- Clear and easy to understand\n\nEXPECTATIONS:\n- Be concise, factual, and grounded in resume content\n- Quote relevant resume sections using quotation marks\n- Align with scoring system logic\n- Never fabricate qualifications\n- When comparing candidates, focus only on requested attributes\n- Avoid speculation without clear evidence\n"

/-- The per-request user message of the generation call. -/
def userMessage (query : String) (ctx : ChatContext)
    (intent : IntentClassificationResult) (evidence : List EvidenceSource) : String :=
  "Context:\n" ++ contextInfo ctx ++ "\n\nQuery: " ++ query ++
    "\n\nIntent: " ++ intentName intent.intent ++
    " (confidence: " ++ toString intent.confidence ++ ")" ++
    evidenceText evidence ++
    "\n\nPlease provide a helpful, evidence-based response."

/-- Outcome of the one external generation call: either the optional
content of `completion.choices[0]?.message?.content`, or a raised value
(`isError` tells whether it was an `Error` carrying a message). -/
inductive GenOutcome where
  | success (content : Option String)
  | failure (isError : Bool) (message : String)

/-- The fixed user-safe messages of the composer's catch branch and the
fixed apology for an empty successful completion. -/
def authMsg : String :=
  "Authentication failed. Please check that the OpenAI API key is correctly configured."

/-- Fixed rate-limit message. -/
def rateMsg : String :=
  "Rate limit exceeded. Please wait a moment and try again."

/-- Fixed quota message. -/
def quotaMsg : String :=
  "OpenAI API quota exceeded. Please check your OpenAI account."

/-- Fixed model-access message. -/
def modelMsg : String :=
  "Model access error. The API key may not have access to gpt-4o-mini."

/-- Fixed generic apology of the catch-all path. -/
def genericMsg : String :=
  "I apologize, but I encountered an error while processing your request. Please check the server logs for more details."

/-- Fixed apology used when the collaborator returns an empty result. -/
def emptyMsg : String :=
  "I apologize, but I cannot provide a response at this time."

/-- `error.message.includes(pat)`. -/
def includesStr (msg pat : String) : Bool :=
  containsSub pat.data msg.data

/-- The catch branch of `generateResponse`: map a raised value to one of
the five fixed user-safe strings by substring inspection in source order;
a non-`Error` value falls through to the generic apology. -/
def errorMessageFor (isError : Bool) (msg : String) : String :=
  if isError then
    if includesStr msg "401" || includesStr msg "Incorrect API key" then authMsg
    else if includesStr msg "429" then rateMsg
    else if includesStr msg "insufficient_quota" ||
        includesStr msg "exceeded your current quota" then quotaMsg
    else if includesStr msg "model" then modelMsg
    else genericMsg
  else genericMsg

/-- `ChatService.generateResponse`: issue the one generation call (the
collaborator `gen` receives the fixed system prompt and the assembled
user message) and translate its outcome into the returned string —
the generated text, the fixed apology when it is empty or missing, or a
fixed error message when the call raised. -/
def generateResponse (query : String) (ctx : ChatContext)
    (intent : IntentClassificationResult) (evidence : List EvidenceSource)
    (gen : String → String → GenOutcome) : String :=
  match gen RISEN_SYSTEM_PROMPT (userMessage query ctx intent evidence) with
  | .success c =>
    match c with
    | some t => if t = "" then emptyMsg else t
    | none => emptyMsg
  | .failure isErr msg => errorMessageFor isErr msg

/-! ## Helper lemmas -/

/-- Splitting never yields an empty list of fields. -/
theorem splitRun_ne_nil (sep : Char → Bool) : ∀ s : List Char, splitRun sep s ≠ []
  | [] => by simp [splitRun]
  | c :: cs => by
    by_cases h : sep c = true
    · cases cs with
      | nil => simp [splitRun, h]
      | cons c' cs' =>
        by_cases h' : sep c' = true
        · simpa [splitRun, h, h'] using splitRun_ne_nil sep (c' :: cs')
        · simp [splitRun, h, h']
    · rcases hsr : splitRun sep cs with _ | ⟨f, fs⟩ <;> simp [splitRun, h, hsr]

/-- If every character of the input is a separator, every field of the
split is empty. -/
theorem splitRun_all_sep (sep : Char → Bool) :
    ∀ s : List Char, (∀ c ∈ s, sep c = true) → ∀ t ∈ splitRun sep s, t = []
  | [] => by intro _ t ht; simpa [splitRun] using ht
  | c :: cs => by
    intro hall t ht
    have hc : sep c = true := hall c (by simp)
    have hcs : ∀ a ∈ cs, sep a = true := fun a ha => hall a (by simp [ha])
    cases cs with
    | nil =>
      simp [splitRun, hc] at ht
      exact ht
    | cons c' cs' =>
      have hc' : sep c' = true := hcs c' (by simp)
      rw [splitRun] at ht
      simp only [hc, hc', if_true] at ht
      exact splitRun_all_sep sep (c' :: cs') hcs t ht

/-- The empty needle occurs in every haystack. -/
theorem containsSub_nil : ∀ l : List Char, containsSub [] l = true
  | [] => rfl
  | _ :: _ => by simp [containsSub, List.isPrefixOf]

/-- Inserting permutes the extended list. -/
theorem insertDesc_perm (x : EvidenceSource) :
    ∀ l : List EvidenceSource, (insertDesc x l).Perm (x :: l) := by
  intro l
  induction l with
  | nil => simp [insertDesc]
  | cons y ys ih =>
    simp only [insertDesc]
    split
    · exact List.Perm.refl _
    · exact (List.Perm.cons y ih).trans (List.Perm.swap x y ys)

/-- The sort permutes its input. -/
theorem sortDesc_perm : ∀ l : List EvidenceSource, (sortDesc l).Perm l := by
  intro l
  induction l with
  | nil => simp [sortDesc]
  | cons x xs ih =>
    exact (insertDesc_perm x (sortDesc xs)).trans (List.Perm.cons x ih)

/-- Membership is preserved by the sort. -/
theorem mem_sortDesc {e : EvidenceSource} {l : List EvidenceSource} :
    e ∈ sortDesc l ↔ e ∈ l :=
  (sortDesc_perm l).mem_iff

/-- Inserting preserves the non-increasing-score invariant. -/
theorem pairwise_insertDesc (x : EvidenceSource) :
    ∀ l : List EvidenceSource,
      l.Pairwise (fun a b => b.relevanceScore ≤ a.relevanceScore) →
      (insertDesc x l).Pairwise (fun a b => b.relevanceScore ≤ a.relevanceScore) := by
  intro l
  induction l with
  | nil => intro _; simp [insertDesc]
  | cons y ys ih =>
    intro hp
    rcases List.pairwise_cons.mp hp with ⟨hy, hys⟩
    simp only [insertDesc]
    split
    case isTrue hle =>
      refine List.pairwise_cons.mpr ⟨?_, hp⟩
      intro z hz
      rcases List.mem_cons.mp hz with rfl | hz2
      · exact hle
      · exact le_trans (hy z hz2) hle
    case isFalse hgt =>
      refine List.pairwise_cons.mpr ⟨?_, ih hys⟩
      intro z hz
      rcases List.mem_cons.mp ((insertDesc_perm x ys).mem_iff.mp hz) with rfl | hz2
      · exact le_of_lt (lt_of_not_le hgt)
      · exact hy z hz2

/-- The sorted list has non-increasing scores. -/
theorem pairwise_sortDesc :
    ∀ l : List EvidenceSource,
      (sortDesc l).Pairwise (fun a b => b.relevanceScore ≤ a.relevanceScore) := by
  intro l
  induction l with
  | nil => simp [sortDesc]
  | cons x xs ih => exact pairwise_insertDesc x (sortDesc xs) ih

/-- Stability of the insertion, phrased by score classes: the elements of
any fixed score keep their relative order. -/
theorem filter_insertDesc (k : ℚ) (x : EvidenceSource) :
    ∀ l : List EvidenceSource,
      (insertDesc x l).filter (fun e => e.relevanceScore == k) =
        (if x.relevanceScore = k then [x] else []) ++
          l.filter (fun e => e.relevanceScore == k) := by
  intro l
  induction l with
  | nil =>
    by_cases hx : x.relevanceScore = k <;> simp [insertDesc, hx]
  | cons y ys ih =>
    simp only [insertDesc]
    split
    case isTrue hle =>
      by_cases hx : x.relevanceScore = k <;> simp [List.filter_cons, hx]
    case isFalse hgt =>
      have hxy : x.relevanceScore < y.relevanceScore := lt_of_not_le hgt
      simp only [List.filter_cons, ih]
      by_cases hx : x.relevanceScore = k
      · have hy : (y.relevanceScore == k) = false := by
          refine beq_eq_false_iff_ne.mpr ?_
          intro hyk
          exact absurd (hyk ▸ hxy) (by simp [hx])
        simp [hx, hy]
      · simp [hx]

/-- Stability of the sort, phrased by score classes. -/
theorem filter_sortDesc (k : ℚ) :
    ∀ l : List EvidenceSource,
      (sortDesc l).filter (fun e => e.relevanceScore == k) =
        l.filter (fun e => e.relevanceScore == k) := by
  intro l
  induction l with
  | nil => simp [sortDesc]
  | cons x xs ih =>
    simp only [sortDesc, filter_insertDesc, ih, List.filter_cons]
    by_cases hx : x.relevanceScore = k
    · simp [hx]
    · simp [hx]

/-- Every element produced by the scoring loop comes from a surviving
sentence at some position `j`, carries its trimmed text, the quotient
score, and the one-based location counted over survivors. -/
theorem mem_buildEvidence (terms : List (List Char)) :
    ∀ (l : List (List Char)) (i : Nat) (e : EvidenceSource),
      e ∈ buildEvidence terms i l →
      ∃ j : Fin l.length,
        0 < sentenceScore terms (l.get j) ∧
        e = { type := "resume", content := ⟨trimChars (l.get j)⟩,
              relevanceScore := (sentenceScore terms (l.get j) : ℚ) / (terms.length : ℚ),
              location := "Sentence " ++ toString (i + j.val + 1) } := by
  intro l
  induction l with
  | nil => intro i e h; simp [buildEvidence] at h
  | cons s rest ih =>
    intro i e h
    simp only [buildEvidence] at h
    split at h
    case isTrue hpos =>
      rcases List.mem_cons.mp h with rfl | h2
      · exact ⟨⟨0, Nat.succ_pos _⟩, hpos, rfl⟩
      · obtain ⟨j, hj1, hj2⟩ := ih (i + 1) e h2
        refine ⟨j.succ, hj1, ?_⟩
        have harith : i + 1 + j.val + 1 = i + j.succ.val + 1 := by
          simp [Fin.val_succ]; omega
        rw [hj2, harith]
        rfl
    case isFalse hneg =>
      obtain ⟨j, hj1, hj2⟩ := ih (i + 1) e h
      refine ⟨j.succ, hj1, ?_⟩
      have harith : i + 1 + j.val + 1 = i + j.succ.val + 1 := by
        simp [Fin.val_succ]; omega
      rw [hj2, harith]
      rfl

/-- `find?` returns the entry at position `n` when it satisfies the
predicate and every earlier entry fails it. -/
theorem find?_first {α : Type} (p : α → Bool) :
    ∀ (l : List α) (n : Nat) (a : α),
      l.get? n = some a → p a = true →
      (∀ m, m < n → ∀ b, l.get? m = some b → p b = false) →
      l.find? p = some a := by
  intro l
  induction l with
  | nil => intro n a h _ _; simp at h
  | cons x xs ih =>
    intro n a hget hpa hmin
    cases n with
    | zero =>
      simp only [List.get?_cons_zero, Option.some.injEq] at hget
      subst hget
      exact List.find?_cons_of_pos _ hpa
    | succ m =>
      have hx : p x = false := hmin 0 (Nat.succ_pos m) x rfl
      rw [List.find?_cons_of_neg _ (by simp [hx])]
      refine ih m a (by simpa using hget) hpa ?_
      intro m' hm' b hb
      exact hmin (m' + 1) (Nat.succ_lt_succ hm') b (by simpa using hb)

/-! ## The claims -/

/-- C1: `classifyIntent` scans the intents in table-declaration order and
returns, for the first intent one of whose rules matches the query
case-insensitively, the record `{intent, confidence := 0.8, entities :=
extractEntities query}` — so when rules of both an earlier- and a
later-declared intent match, the earlier-declared intent wins — and when
no rule of any intent matches it returns `{intent := unknown, confidence
:= 0.3, entities := extractEntities query}`. -/
theorem c1_classifyIntent_first_match (q : String) :
    (∀ (n : Nat) (intent : ChatIntent) (rules : List Rule),
        intentTable.get? n = some (intent, rules) →
        (∃ rule ∈ rules, testRule rule (lowerQuery q) = true) →
        (∀ m, m < n → ∀ (intent' : ChatIntent) (rules' : List Rule),
            intentTable.get? m = some (intent', rules') →
            ∀ rule ∈ rules', testRule rule (lowerQuery q) = false) →
        classifyIntent q =
          { intent := intent, confidence := 0.8, entities := extractEntities q }) ∧
    ((∀ ir ∈ intentTable, ∀ rule ∈ ir.2, testRule rule (lowerQuery q) = false) →
      classifyIntent q =
        { intent := ChatIntent.unknown, confidence := 0.3,
          entities := extractEntities q }) := by
  constructor
  · intro n intent rules hget hex hmin
    have hp : (fun ir : ChatIntent × List Rule =>
        ir.2.any (fun rule => testRule rule (lowerQuery q))) (intent, rules) = true := by
      simp only [List.any_eq_true]
      obtain ⟨rule, hr, ht⟩ := hex
      exact ⟨rule, hr, ht⟩
    have hfind := find?_first
      (fun ir : ChatIntent × List Rule =>
        ir.2.any (fun rule => testRule rule (lowerQuery q)))
      intentTable n (intent, rules) hget hp ?_
    · simp [classifyIntent, hfind]
    · intro m hm b hb
      simp only [List.any_eq_false]
      intro rule hr
      simp [hmin m hm b.1 b.2 hb rule hr]
  · intro hfalse
    have hnone : intentTable.find? (fun ir =>
        ir.2.any (fun rule => testRule rule (lowerQuery q))) = none := by
      rw [List.find?_eq_none]
      intro ir hir
      simp only [List.any_eq_true, not_exists]
      intro rule h
      exact absurd h.2 (by simp [hfalse ir hir rule h.1])
    simp [classifyIntent, hnone]

/-- C1 witness: the query `"did they mention how long"` matches both a
rule of the first-declared intent (`did they mention`) and a rule of the
later-declared `experience_analysis` intent (`how long`), and
`classifyIntent` reports the earlier-declared one. -/
theorem c1_classifyIntent_first_match_inst :
    testRule [["years", "experience"], ["how long"], ["duration", "work"]]
        (lowerQuery "did they mention how long") = true ∧
    classifyIntent "did they mention how long" =
      { intent := ChatIntent.resume_detail_inquiry, confidence := 0.8,
        entities := extractEntities "did they mention how long" } := by
  constructor
  · decide
  · exact (c1_classifyIntent_first_match "did they mention how long").1 0
      ChatIntent.resume_detail_inquiry _ rfl (by decide)
      (fun m hm => absurd hm (Nat.not_lt_zero m))

/-- C8: retrieval and classification are total: an empty resume makes
`searchResume` return the empty sequence at once for every query, and
`classifyIntent` always yields a result (with one of the two fixed
confidence values). -/
theorem c8_searchResume_empty_total (q : String) :
    searchResume "" q = [] ∧
    ((classifyIntent q).confidence = 0.8 ∨ (classifyIntent q).confidence = 0.3) := by
  constructor
  · simp [searchResume]
  · cases h : intentTable.find? (fun ir =>
        ir.2.any (fun rule => testRule rule (lowerQuery q))) with
    | none => simp [classifyIntent, h]
    | some ir => simp [classifyIntent, h]

/-- C4: when the generation collaborator raises, `generateResponse`
returns (never re-raises) one of five fixed user-safe strings, selected by
inspecting the error text for substrings in source priority order:
`401`/`Incorrect API key`, then `429`, then `insufficient_quota`/
`exceeded your current quota`, then `model`, then the generic apology. -/
theorem c4_generateResponse_error_mapping (q : String) (ctx : ChatContext)
    (it : IntentClassificationResult) (ev : List EvidenceSource)
    (isErr : Bool) (msg : String) :
    generateResponse q ctx it ev (fun _ _ => GenOutcome.failure isErr msg) =
        errorMessageFor isErr msg ∧
    (errorMessageFor isErr msg = authMsg ∨ errorMessageFor isErr msg = rateMsg ∨
      errorMessageFor isErr msg = quotaMsg ∨ errorMessageFor isErr msg = modelMsg ∨
      errorMessageFor isErr msg = genericMsg) ∧
    (isErr = true →
      ((includesStr msg "401" || includesStr msg "Incorrect API key") = true →
        errorMessageFor isErr msg = authMsg) ∧
      ((includesStr msg "401" || includesStr msg "Incorrect API key") = false →
        includesStr msg "429" = true →
        errorMessageFor isErr msg = rateMsg) ∧
      ((includesStr msg "401" || includesStr msg "Incorrect API key") = false →
        includesStr msg "429" = false →
        (includesStr msg "insufficient_quota" ||
          includesStr msg "exceeded your current quota") = true →
        errorMessageFor isErr msg = quotaMsg) ∧
      ((includesStr msg "401" || includesStr msg "Incorrect API key") = false →
        includesStr msg "429" = false →
        (includesStr msg "insufficient_quota" ||
          includesStr msg "exceeded your current quota") = false →
        includesStr msg "model" = true →
        errorMessageFor isErr msg = modelMsg) ∧
      ((includesStr msg "401" || includesStr msg "Incorrect API key") = false →
        includesStr msg "429" = false →
        (includesStr msg "insufficient_quota" ||
          includesStr msg "exceeded your current quota") = false →
        includesStr msg "model" = false →
        errorMessageFor isErr msg = genericMsg)) := by
  refine ⟨rfl, ?_, ?_⟩
  · unfold errorMessageFor
    split_ifs <;> simp
  · intro hE
    subst hE
    refine ⟨?_, ?_, ?_, ?_, ?_⟩
    · intro h1
      simp [errorMessageFor, h1]
    · intro h1 h2
      simp [errorMessageFor, h1, h2]
    · intro h1 h2 h3
      simp [errorMessageFor, h1, h2, h3]
    · intro h1 h2 h3 h4
      simp [errorMessageFor, h1, h2, h3, h4]
    · intro h1 h2 h3 h4
      simp [errorMessageFor, h1, h2, h3, h4]

/-- C4 witness: a collaborator failure whose message contains `429` is
mapped to the fixed rate-limit message. -/
theorem c4_generateResponse_error_mapping_inst :
    generateResponse "hi" ⟨none, none, none, none, none⟩
        { intent := ChatIntent.unknown, confidence := 0.3, entities := [] } []
        (fun _ _ => GenOutcome.failure true "HTTP 429 Too Many Requests") =
      rateMsg := by
  have h := c4_generateResponse_error_mapping "hi" ⟨none, none, none, none, none⟩
    { intent := ChatIntent.unknown, confidence := 0.3, entities := [] } []
    true "HTTP 429 Too Many Requests"
  rw [h.1]
  exact (h.2.2 rfl).2.1 (by decide) (by decide)

/-- C5: `generateResponse` always resolves to a non-empty string: a
non-empty successful completion is returned verbatim, an empty or missing
completion becomes the fixed apology, and every failure becomes a fixed
human-readable sentence. -/
theorem c5_generateResponse_nonempty (q : String) (ctx : ChatContext)
    (it : IntentClassificationResult) (ev : List EvidenceSource) :
    (∀ gen : String → String → GenOutcome, generateResponse q ctx it ev gen ≠ "") ∧
    (∀ t : String, t ≠ "" →
      generateResponse q ctx it ev (fun _ _ => GenOutcome.success (some t)) = t) ∧
    generateResponse q ctx it ev (fun _ _ => GenOutcome.success (some "")) = emptyMsg ∧
    generateResponse q ctx it ev (fun _ _ => GenOutcome.success none) = emptyMsg := by
  refine ⟨?_, ?_, rfl, rfl⟩
  · intro gen
    unfold generateResponse
    cases gen RISEN_SYSTEM_PROMPT (userMessage q ctx it ev) with
    | success c =>
      cases c with
      | none => decide
      | some t =>
        by_cases ht : t = ""
        · simp only [if_pos ht]
          decide
        · simp only [if_neg ht]
          exact ht
    | failure isErr msg =>
      show errorMessageFor isErr msg ≠ ""
      unfold errorMessageFor
      split_ifs <;> decide
  · intro t ht
    simp [generateResponse, ht]

/-- C5 witness: a non-empty completion is passed through unchanged. -/
theorem c5_generateResponse_nonempty_inst :
    generateResponse "hi" ⟨none, none, none, none, none⟩
        { intent := ChatIntent.unknown, confidence := 0.3, entities := [] } []
        (fun _ _ => GenOutcome.success (some "All good.")) = "All good." :=
  (c5_generateResponse_nonempty "hi" ⟨none, none, none, none, none⟩
    { intent := ChatIntent.unknown, confidence := 0.3, entities := [] } []).2.1
    "All good." (by decide)

/-- Every evidence item returned by `searchResume` comes from the
surviving sentence at some position `j`. -/
theorem mem_searchResume {r q : String} {e : EvidenceSource}
    (h : e ∈ searchResume r q) :
    ∃ j : Fin (sentencesOf r).length,
      0 < sentenceScore (queryTermsOf q) ((sentencesOf r).get j) ∧
      e = { type := "resume",
            content := ⟨trimChars ((sentencesOf r).get j)⟩,
            relevanceScore :=
              (sentenceScore (queryTermsOf q) ((sentencesOf r).get j) : ℚ) /
                ((queryTermsOf q).length : ℚ),
            location := "Sentence " ++ toString (j.val + 1) } := by
  unfold searchResume at h
  split at h
  · simp at h
  · have h2 : e ∈ sortDesc (buildEvidence (queryTermsOf q) 0 (sentencesOf r)) :=
      List.mem_of_mem_take h
    obtain ⟨j, hj1, hj2⟩ :=
      mem_buildEvidence (queryTermsOf q) (sentencesOf r) 0 e (mem_sortDesc.mp h2)
    exact ⟨j, hj1, by simpa using hj2⟩

/-- C2: every item returned by `searchResume` carries a relevance score
equal to the number of query terms occurring (case-insensitively, each
term counted at most once per sentence) in its sentence, divided by the
total number of query terms; zero-scoring sentences are excluded, so every
returned score lies in `(0, 1]`. -/
theorem c2_searchResume_scores (r q : String) (e : EvidenceSource)
    (h : e ∈ searchResume r q) :
    0 < e.relevanceScore ∧ e.relevanceScore ≤ 1 ∧
    ∃ j : Fin (sentencesOf r).length,
      e.content = ⟨trimChars ((sentencesOf r).get j)⟩ ∧
      e.relevanceScore =
        (sentenceScore (queryTermsOf q) ((sentencesOf r).get j) : ℚ) /
          ((queryTermsOf q).length : ℚ) ∧
      0 < sentenceScore (queryTermsOf q) ((sentencesOf r).get j) := by
  obtain ⟨j, hj1, hj2⟩ := mem_searchResume h
  have hn : 0 < (queryTermsOf q).length :=
    List.length_pos.mpr (splitRun_ne_nil isWS (q.data.map Char.toLower))
  have hk : sentenceScore (queryTermsOf q) ((sentencesOf r).get j) ≤
      (queryTermsOf q).length := List.countP_le_length _
  rw [hj2]
  refine ⟨?_, ?_, j, rfl, rfl, hj1⟩
  · exact div_pos (by exact_mod_cast hj1) (by exact_mod_cast hn)
  · rw [div_le_one (by exact_mod_cast hn)]
    exact_mod_cast hk

/-- C2 witness: for the one item retrieved from a two-sentence resume by
the query `"python"`, the score is positive and at most one. -/
theorem c2_searchResume_scores_inst :
    ({ type := "resume", content := "I wrote Python code",
       relevanceScore := ((1 : Nat) : ℚ) / ((1 : Nat) : ℚ),
       location := "Sentence 1" } : EvidenceSource) ∈
        searchResume "I wrote Python code. Java beans." "python" ∧
    (0 : ℚ) < ((1 : Nat) : ℚ) / ((1 : Nat) : ℚ) ∧
    ((1 : Nat) : ℚ) / ((1 : Nat) : ℚ) ≤ 1 := by
  have heq : searchResume "I wrote Python code. Java beans." "python" =
      [({ type := "resume", content := "I wrote Python code",
          relevanceScore := ((1 : Nat) : ℚ) / ((1 : Nat) : ℚ),
          location := "Sentence 1" } : EvidenceSource)] := rfl
  have hmem : ({ type := "resume", content := "I wrote Python code",
                 relevanceScore := ((1 : Nat) : ℚ) / ((1 : Nat) : ℚ),
                 location := "Sentence 1" } : EvidenceSource) ∈
        searchResume "I wrote Python code. Java beans." "python" := by
    rw [heq]
    exact List.mem_singleton.mpr rfl
  have h := c2_searchResume_scores "I wrote Python code. Java beans." "python" _ hmem
  exact ⟨hmem, h.1, h.2.1⟩

/-- C3: `searchResume` returns the first at-most-five entries of the
positively scored sentences, stably sorted by non-increasing score: the
result has length at most five, its scores are non-increasing, and within
any fixed score the result is a prefix of the original (ascending
sentence-order) evidence list, so ties keep their original order. -/
theorem c3_searchResume_ranking (r q : String) :
    (searchResume r q).length ≤ 5 ∧
    (searchResume r q).Pairwise (fun a b => b.relevanceScore ≤ a.relevanceScore) ∧
    ∀ k : ℚ,
      (searchResume r q).filter (fun e => e.relevanceScore == k) <+:
        (buildEvidence (queryTermsOf q) 0 (sentencesOf r)).filter
          (fun e => e.relevanceScore == k) := by
  refine ⟨?_, ?_, ?_⟩
  · unfold searchResume
    split
    · simp
    · exact List.length_take_le 5 _
  · unfold searchResume
    split
    · simp
    · exact List.Pairwise.sublist (List.take_sublist 5 _) (pairwise_sortDesc _)
  · intro k
    unfold searchResume
    split
    · simp
    · have htake := List.take_prefix 5
        (sortDesc (buildEvidence (queryTermsOf q) 0 (sentencesOf r)))
      have hpre := List.IsPrefix.filter
        (fun e : EvidenceSource => e.relevanceScore == k) htake
      rwa [filter_sortDesc] at hpre

/-- C9: the `location` of every returned evidence item is `"Sentence N"`
where `N` is the one-based position of its sentence among the surviving
(non-empty) units — not its position in the raw split including discarded
empty units — and its `content` is that trimmed sentence. -/
theorem c9_searchResume_location (r q : String) (e : EvidenceSource)
    (h : e ∈ searchResume r q) :
    ((List.range (sentencesOf r).length).any (fun j =>
      (e.location == "Sentence " ++ toString (j + 1)) &&
      (e.content == (⟨trimChars ((sentencesOf r).getD j [])⟩ : String)))) = true := by
  obtain ⟨j, _, hj2⟩ := mem_searchResume h
  rw [List.any_eq_true]
  refine ⟨j.val, List.mem_range.mpr j.isLt, ?_⟩
  rw [Bool.and_eq_true, beq_iff_eq, beq_iff_eq]
  have hget : (sentencesOf r).getD j.val [] = (sentencesOf r).get j := by
    rw [List.getD_eq_get?, List.get?_eq_get j.isLt]
    rfl
  rw [hget, hj2]
  exact ⟨rfl, rfl⟩

/-- C9 witness: on the resume `"!!Python!Java"` (whose raw split has a
leading empty unit) and the query `"java"`, the returned item's location
is `"Sentence 2"` — the survivor position of `Java` — while its raw-split
position would be 3. -/
theorem c9_searchResume_location_inst :
    ({ type := "resume", content := "Java",
       relevanceScore := ((1 : Nat) : ℚ) / ((1 : Nat) : ℚ),
       location := "Sentence 2" } : EvidenceSource) ∈
        searchResume "!!Python!Java" "java" ∧
    ((List.range (sentencesOf "!!Python!Java").length).any (fun j =>
      (({ type := "resume", content := "Java",
          relevanceScore := ((1 : Nat) : ℚ) / ((1 : Nat) : ℚ),
          location := "Sentence 2" } : EvidenceSource).location ==
            "Sentence " ++ toString (j + 1)) &&
      (({ type := "resume", content := "Java",
          relevanceScore := ((1 : Nat) : ℚ) / ((1 : Nat) : ℚ),
          location := "Sentence 2" } : EvidenceSource).content ==
            (⟨trimChars ((sentencesOf "!!Python!Java").getD j [])⟩ : String)))) =
      true := by
  have heq : searchResume "!!Python!Java" "java" =
      [({ type := "resume", content := "Java",
          relevanceScore := ((1 : Nat) : ℚ) / ((1 : Nat) : ℚ),
          location := "Sentence 2" } : EvidenceSource)] := rfl
  have hmem : ({ type := "resume", content := "Java",
                 relevanceScore := ((1 : Nat) : ℚ) / ((1 : Nat) : ℚ),
                 location := "Sentence 2" } : EvidenceSource) ∈
        searchResume "!!Python!Java" "java" := by
    rw [heq]
    exact List.mem_singleton.mpr rfl
  exact ⟨hmem, c9_searchResume_location "!!Python!Java" "java" _ hmem⟩

/-- Lowercasing fixes whitespace characters. -/
theorem ws_toLower (c : Char) (h : isWS c = true) : Char.toLower c = c := by
  simp only [isWS, Bool.or_eq_true, beq_iff_eq] at h
  rcases h with ((((rfl | rfl) | rfl) | rfl) | rfl) | rfl <;> decide

/-- A whitespace-only query tokenizes into empty-string terms. -/
theorem terms_nil_of_ws {q : String} (hws : ∀ c ∈ q.data, isWS c = true) :
    ∀ t ∈ queryTermsOf q, t = [] := by
  intro t ht
  refine splitRun_all_sep isWS (q.data.map Char.toLower) ?_ t ht
  intro c hc
  obtain ⟨c0, hc0, rfl⟩ := List.mem_map.mp hc
  rw [ws_toLower c0 (hws c0 hc0)]
  exact hws c0 hc0

/-- When every term is the empty string, every sentence scores the full
term count. -/
theorem score_eq_length_of_terms_nil {terms : List (List Char)}
    (h : ∀ t ∈ terms, t = []) (s : List Char) :
    sentenceScore terms s = terms.length := by
  unfold sentenceScore
  rw [List.countP_eq_length]
  intro t ht
  rw [h t ht]
  exact containsSub_nil _

/-- Inserting above everything prepends. -/
theorem insertDesc_ge (x : EvidenceSource) (l : List EvidenceSource)
    (h : ∀ e ∈ l, e.relevanceScore ≤ x.relevanceScore) :
    insertDesc x l = x :: l := by
  cases l with
  | nil => rfl
  | cons y ys => simp [insertDesc, h y (List.mem_cons_self y ys)]

/-- Sorting a constant-score list is the identity. -/
theorem sortDesc_const (v : ℚ) :
    ∀ l : List EvidenceSource,
      (∀ e ∈ l, e.relevanceScore = v) → sortDesc l = l := by
  intro l
  induction l with
  | nil => intro _; rfl
  | cons x xs ih =>
    intro h
    show insertDesc x (sortDesc xs) = x :: xs
    rw [ih (fun e he => h e (List.mem_cons_of_mem x he))]
    refine insertDesc_ge x xs ?_
    intro e he
    rw [h e (List.mem_cons_of_mem x he), h x (List.mem_cons_self x xs)]

/-- When every sentence scores positively, the scoring loop keeps every
sentence, and (with every term empty) each score is exactly one. -/
theorem buildEvidence_const (terms : List (List Char)) (hne : terms ≠ [])
    (hall : ∀ s, sentenceScore terms s = terms.length) :
    ∀ (l : List (List Char)) (i : Nat),
      (buildEvidence terms i l).length = l.length ∧
      ∀ e ∈ buildEvidence terms i l, e.relevanceScore = 1 := by
  intro l
  induction l with
  | nil => intro _; exact ⟨rfl, by simp [buildEvidence]⟩
  | cons s rest ih =>
    intro i
    have hpos : 0 < sentenceScore terms s := by
      rw [hall s]
      exact List.length_pos.mpr hne
    have hlen0 : (terms.length : ℚ) ≠ 0 :=
      Nat.cast_ne_zero.mpr (Nat.pos_iff_ne_zero.mp (List.length_pos.mpr hne))
    constructor
    · simp only [buildEvidence, if_pos hpos, List.length_cons]
      rw [(ih (i + 1)).1]
    · intro e he
      simp only [buildEvidence, if_pos hpos] at he
      rcases List.mem_cons.mp he with rfl | he2
      · show (sentenceScore terms s : ℚ) / (terms.length : ℚ) = 1
        rw [hall s]
        exact div_self hlen0
      · exact (ih (i + 1)).2 e he2

/-- C10: tokenizing any query (even the empty one) yields at least one
term, so the score quotient never divides by zero; and for a whitespace-
only query every term is the empty string, so every surviving sentence
scores exactly 1 and `searchResume` returns the first
`min 5 (number of surviving sentences)` sentences rather than nothing. -/
theorem c10_searchResume_whitespace_query :
    (∀ q : String, queryTermsOf q ≠ []) ∧
    (∀ r q : String, (∀ c ∈ q.data, isWS c = true) →
      searchResume r q =
          (buildEvidence (queryTermsOf q) 0 (sentencesOf r)).take 5 ∧
      (∀ e ∈ searchResume r q, e.relevanceScore = 1) ∧
      (searchResume r q).length = min 5 (sentencesOf r).length) := by
  have hterms : ∀ q : String, queryTermsOf q ≠ [] :=
    fun q => splitRun_ne_nil isWS (q.data.map Char.toLower)
  refine ⟨hterms, ?_⟩
  intro r q hws
  have hall : ∀ s, sentenceScore (queryTermsOf q) s = (queryTermsOf q).length :=
    fun s => score_eq_length_of_terms_nil (terms_nil_of_ws hws) s
  have hbc := buildEvidence_const (queryTermsOf q) (hterms q) hall (sentencesOf r) 0
  have hsort : sortDesc (buildEvidence (queryTermsOf q) 0 (sentencesOf r)) =
      buildEvidence (queryTermsOf q) 0 (sentencesOf r) :=
    sortDesc_const 1 _ hbc.2
  have hmain : searchResume r q =
      (buildEvidence (queryTermsOf q) 0 (sentencesOf r)).take 5 := by
    unfold searchResume
    split
    case isTrue hr =>
      subst hr
      rfl
    case isFalse hr =>
      rw [hsort]
  refine ⟨hmain, ?_, ?_⟩
  · intro e he
    rw [hmain] at he
    exact hbc.2 e (List.mem_of_mem_take he)
  · rw [hmain, List.length_take, hbc.1]

/-- C10 witness: a one-space query against a seven-sentence resume
returns exactly five items. -/
theorem c10_searchResume_whitespace_query_inst :
    (searchResume "A. B. C. D. E. F. G" " ").length =
      min 5 (sentencesOf "A. B. C. D. E. F. G").length :=
  (c10_searchResume_whitespace_query.2 "A. B. C. D. E. F. G" " " (by decide)).2.2

/-- An append whose left part is non-empty is non-empty. -/
theorem str_append_ne_empty (lbl x : String) (h : lbl ≠ "") : lbl ++ x ≠ "" := by
  intro he
  apply h
  apply String.ext
  have hd : (lbl ++ x).data = ("" : String).data := by rw [he]
  rw [String.data_append] at hd
  exact (List.append_eq_nil.mp hd).1

/-- Truthiness of labelled lines as Bool, for the six line builders. -/
theorem bne_label (lbl x : String) (h : lbl ≠ "") : ((lbl ++ x) != "") = true := by
  simp only [bne_iff_ne, ne_eq]
  exact str_append_ne_empty lbl x h

/-- The candidate line survives the filter exactly when the field is
truthy. -/
theorem candidateLine_truthy (cn : Option String) :
    ((candidateLine cn != "") = true) = (truthyOpt cn = true) := by
  rcases cn with _ | n
  · simp [candidateLine, truthyOpt]
  · by_cases h : n = "" <;>
      simp [candidateLine, truthyOpt, h, bne_label "Candidate: " n (by decide)]

/-- The job-description line survives the filter exactly when the field is
truthy. -/
theorem jobLine_truthy (jd : Option String) :
    ((jobLine jd != "") = true) = (truthyOpt jd = true) := by
  rcases jd with _ | j
  · simp [jobLine, truthyOpt]
  · by_cases h : j = "" <;>
      simp [jobLine, truthyOpt, h,
        bne_label ("Job Description: " ++ (⟨j.data.take 500⟩ : String)) "..."
          (str_append_ne_empty "Job Description: " _ (by decide))]

/-- The must-have line survives the filter exactly when the field is
truthy. -/
theorem mustHaveLine_truthy (m : Option String) :
    ((mustHaveLine m != "") = true) = (truthyOpt m = true) := by
  rcases m with _ | v
  · simp [mustHaveLine, truthyOpt]
  · by_cases h : v = "" <;>
      simp [mustHaveLine, truthyOpt, h,
        bne_label "Must-Have Attributes: " v (by decide)]

/-- The score line survives the filter exactly when an evaluation result
is present. -/
theorem scoreLine_truthy (er : Option EvaluationResultCtx) :
    ((scoreLine er != "") = true) = (er.isSome = true) := by
  rcases er with _ | e
  · simp [scoreLine]
  · simp [scoreLine, bne_label "Evaluation Score: " (scoreText e.overall) (by decide)]

/-- The tier line survives the filter exactly when the tier is truthy. -/
theorem tierLine_truthy (er : Option EvaluationResultCtx) :
    ((tierLine er != "") = true) =
      (truthyOpt (er.bind EvaluationResultCtx.tier) = true) := by
  rcases er with _ | e
  · simp [tierLine, truthyOpt]
  · rcases he : e.tier with _ | t
    · simp [tierLine, he, truthyOpt]
    · by_cases h : t = "" <;>
        simp [tierLine, he, truthyOpt, h, bne_label "Tier: " t (by decide)]

/-- The explanation line survives the filter exactly when the explanation
is truthy. -/
theorem explanationLine_truthy (er : Option EvaluationResultCtx) :
    ((explanationLine er != "") = true) =
      (truthyOpt (er.bind EvaluationResultCtx.explanation) = true) := by
  rcases er with _ | e
  · simp [explanationLine, truthyOpt]
  · rcases he : e.explanation with _ | x
    · simp [explanationLine, he, truthyOpt]
    · by_cases h : x = "" <;>
        simp [explanationLine, he, truthyOpt, h,
          bne_label "Evaluation Summary: " x (by decide)]

/-- C6: whenever a job description is present (and non-empty, i.e.
truthy), the context summary contains the line made of its first 500
characters with the ellipsis marker appended unconditionally — also when
it is 500 characters or shorter — while no assembled line is blank and
each falsy field contributes no line at all: the number of lines is
exactly the number of truthy fields. -/
theorem c6_contextInfo_lines (ctx : ChatContext) :
    (∀ jd : String, ctx.jobDescription = some jd → jd ≠ "" →
      ("Job Description: " ++ (⟨jd.data.take 500⟩ : String) ++ "...") ∈
        contextLines ctx) ∧
    (∀ l ∈ contextLines ctx, l ≠ "") ∧
    (contextLines ctx).length =
      ((if truthyOpt ctx.candidateName then 1 else 0) +
        (if truthyOpt ctx.jobDescription then 1 else 0) +
        (if truthyOpt ctx.mustHaveAttributes then 1 else 0) +
        (if ctx.evaluationResult.isSome then 1 else 0) +
        (if truthyOpt (ctx.evaluationResult.bind EvaluationResultCtx.tier)
          then 1 else 0) +
        (if truthyOpt (ctx.evaluationResult.bind EvaluationResultCtx.explanation)
          then 1 else 0)) := by
  refine ⟨?_, ?_, ?_⟩
  · intro jd hjd hne
    have hline : jobLine ctx.jobDescription =
        "Job Description: " ++ (⟨jd.data.take 500⟩ : String) ++ "..." := by
      rw [hjd]
      simp [jobLine, hne]
    rw [contextLines, List.mem_filter]
    constructor
    · rw [← hline]
      simp [contextLinesRaw]
    · rw [bne_iff_ne]
      exact str_append_ne_empty _ _
        (str_append_ne_empty "Job Description: " _ (by decide))
  · intro l hl
    have := (List.mem_filter.mp hl).2
    simpa using this
  · rw [contextLines, contextLinesRaw, ← List.countP_eq_length_filter]
    simp only [List.countP_cons, List.countP_nil, candidateLine_truthy,
      jobLine_truthy, mustHaveLine_truthy, scoreLine_truthy, tierLine_truthy,
      explanationLine_truthy]
    split_ifs <;> omega

/-- C6 witness: a context whose job description is only 10 characters
still gets the ellipsis marker after its (un-truncated) first 500
characters. -/
theorem c6_contextInfo_lines_inst :
    ("Job Description: " ++ (⟨("short desc" : String).data.take 500⟩ : String) ++ "...") ∈
      contextLines ⟨some "Ada", none, some "short desc", none, none⟩ :=
  (c6_contextInfo_lines ⟨some "Ada", none, some "short desc", none, none⟩).1
    "short desc" rfl (by decide)

/-- C7: `extractEntities` holds key `technologies` exactly when the
vocabulary scan finds at least one match, its value being the matches (in
order of first appearance, duplicates included) joined by `", "`; it holds
key `experience_years` exactly when the experience pattern matches,
holding the captured integer text; it is empty when nothing matches; and
on `"5 years of experience in Python and AWS"` it yields
`experience_years "5"` and `technologies "Python, AWS"` (Python before
AWS). -/
theorem c7_extractEntities (q : String) :
    List.lookup "technologies" (extractEntities q) =
      (if techMatches q = [] then none else some (joinComma (techMatches q))) ∧
    List.lookup "experience_years" (extractEntities q) =
      (expScan q.data).map (fun ds => (⟨ds⟩ : String)) ∧
    (techMatches q = [] ∧ expScan q.data = none → extractEntities q = []) ∧
    extractEntities "5 years of experience in Python and AWS" =
      [("technologies", "Python, AWS"), ("experience_years", "5")] := by
  have h1 : (("experience_years" : String) == "technologies") = false := by decide
  have h2 : (("technologies" : String) == "experience_years") = false := by decide
  refine ⟨?_, ?_, ?_, ?_⟩
  · rcases htech : techMatches q with _ | ⟨m, ms⟩ <;>
      rcases hexp : expScan q.data with _ | ds <;>
      simp [extractEntities, htech, hexp, List.lookup, h2]
  · rcases htech : techMatches q with _ | ⟨m, ms⟩ <;>
      rcases hexp : expScan q.data with _ | ds <;>
      simp [extractEntities, htech, hexp, List.lookup, h1]
  · intro h
    simp [extractEntities, h.1, h.2]
  · decide

/-- C7 witness: a query matching nothing yields the empty mapping. -/
theorem c7_extractEntities_inst :
    techMatches "hello" = [] ∧ expScan ("hello" : String).data = none ∧
    extractEntities "hello" = [] :=
  ⟨by decide, by decide,
    (c7_extractEntities "hello").2.2.1 ⟨by decide, by decide⟩⟩

end ChatService
